import Mathlib

/-!
Verification of `git-switch/git-user-script.py`, a CLI tool that stores
named Git identities in a JSON file inside a repository's `.git`
directory and switches the repository's local identity among them.

Shallow embedding conventions:
* a Python dict with string keys is an association list in insertion
  order (`Store`);
* the backing JSON file is modelled at the parsed-JSON-value level
  (`Json`), with a `FileContent` state distinguishing an absent file, a
  file whose text is not valid JSON, and a file holding a JSON value;
* the subprocess environment is a function from the full command line to
  a `RunOutcome`; a missing `git` binary (Python `FileNotFoundError`)
  and a non-zero exit (`subprocess.CalledProcessError`) are distinct
  outcomes because the source catches only the latter;
* each interactive operation is a pure function from the in-memory store
  and the user's line inputs to an `OpResult` recording the resulting
  store, the JSON value written to the backing file (if any), and the
  identity handed to `git config --local` (if any);
* filesystem paths are lists of components listed innermost first, so
  the parent of `c :: rest` is `rest` and `[]` is the filesystem root.
-/

namespace GitUserSwitcher

/-! String primitives. The Python methods `str.strip`, `str.lower`,
`in` and `int()` are modelled structurally over the character list of a
string (ASCII whitespace, ASCII case folding and ASCII digits; the
claims only exercise those). -/

/-- Python `str.strip()` on the character list: drop leading and
trailing whitespace. -/
def stripChars (l : List Char) : List Char :=
  ((l.dropWhile Char.isWhitespace).reverse.dropWhile Char.isWhitespace).reverse

/-- Python `str.strip()`. -/
def pyStrip (s : String) : String :=
  String.mk (stripChars s.data)

/-- ASCII lowering of one character. -/
def lowerChar (c : Char) : Char :=
  if 'A' ≤ c ∧ c ≤ 'Z' then Char.ofNat (c.toNat + 32) else c

/-- Python `str.lower()`. -/
def pyLower (s : String) : String :=
  String.mk (s.data.map lowerChar)

/-- Python `c in s` for a one-character needle. -/
def pyContainsChar (s : String) (c : Char) : Bool :=
  s.data.contains c

/-- Digit-string value: `some` exactly when the list is non-empty and
all digits. -/
def digitsNat (l : List Char) : Option Nat :=
  if l ≠ [] ∧ l.all Char.isDigit then
    some (l.foldl (fun a c => a * 10 + (c.toNat - 48)) 0)
  else none

/-- A JSON value, restricted to the shapes this program reads and
writes: `json.dump` over dicts of dicts of strings and `None`. -/
inductive Json where
  | null : Json
  | str : String → Json
  | obj : List (String × Json) → Json

/-- One stored user: the value of `self.users[name]`, a dict with an
`email` string and a `password` that is a string or `None`. -/
structure UserRecord where
  email : String
  password : Option String
deriving DecidableEq, Repr

/-- The in-memory `self.users` dict: user name to record, in insertion
order, as Python dicts preserve it. -/
abbrev Store := List (String × UserRecord)

/-- Python dict assignment `d[k] = v`: replace the value at an existing
key in place, else append the new pair at the end. -/
def dictInsert : Store → String → UserRecord → Store
  | [], name, r => [(name, r)]
  | (k, v) :: rest, name, r =>
      if k = name then (k, r) :: rest
      else (k, v) :: dictInsert rest name r

/-- Python `del d[k]`: drop the first pair carrying the key. -/
def dictDelete : Store → String → Store
  | [], _ => []
  | (k, v) :: rest, name =>
      if k = name then rest
      else (k, v) :: dictDelete rest name

/-- Python `d[k]` as an option: the value at the first pair carrying the
key. -/
def dictGet : Store → String → Option UserRecord
  | [], _ => none
  | (k, v) :: rest, name => if k = name then some v else dictGet rest name

/-- Python `list(d.keys())`. -/
def dictKeys (users : Store) : List String :=
  users.map Prod.fst

/-- Serialization of one record, as `json.dump` renders the per-user
dict built in `add_user`. -/
def recordToJson (r : UserRecord) : Json :=
  Json.obj [("email", Json.str r.email),
            ("password", match r.password with
                         | none => Json.null
                         | some p => Json.str p)]

/-- Serialization of the whole store, as `json.dump(self.users, f)` in
`_save_users` renders it. -/
def usersToJson (users : Store) : Json :=
  Json.obj (users.map (fun kv => (kv.1, recordToJson kv.2)))

/-! State of the backing file `git-users.json`, at the granularity the
source distinguishes: the file may be absent, present but not valid
JSON, or present and holding a JSON value. -/

/-- Backing-file state. `corrupt` is a file whose text `json.load`
rejects with `json.JSONDecodeError`. -/
inductive FileContent where
  | absent : FileContent
  | corrupt : FileContent
  | json : Json → FileContent

/-- Python `self.users_file.exists()`. -/
def fileExists : FileContent → Bool
  | FileContent.absent => false
  | _ => true

/-- The `json.load(f)` call: returns the parsed value or raises. On an
absent file the surrounding `open` would already raise, hence the
error there too; `_load_users` never reaches it in that case. -/
def parseFile : FileContent → Except String Json
  | FileContent.absent => Except.error "FileNotFoundError"
  | FileContent.corrupt => Except.error "JSONDecodeError"
  | FileContent.json j => Except.ok j

/-- `_load_users`: if the file exists, try to parse it, returning the
empty dict when `json.JSONDecodeError` is raised; if it does not exist,
return the empty dict. Total: no error escapes to the caller. -/
def loadUsers (file : FileContent) : Json :=
  if fileExists file then
    match parseFile file with
    | Except.ok j => j
    | Except.error _ => Json.obj []
  else Json.obj []

/-- `_save_users`: the file state after `json.dump(self.users, f)`. -/
def saveUsersFile (users : Store) : FileContent :=
  FileContent.json (usersToJson users)

/-- Reading one serialized record back into a `UserRecord`; inverse of
`recordToJson` on its image. -/
def decodeRecord : Json → Option UserRecord
  | Json.obj [("email", Json.str e), ("password", Json.null)] =>
      some ⟨e, none⟩
  | Json.obj [("email", Json.str e), ("password", Json.str p)] =>
      some ⟨e, some p⟩
  | _ => none

/-- Reading the entries of a serialized store back, entry by entry. -/
def decodeEntries : List (String × Json) → Option Store
  | [] => some []
  | (n, j) :: rest =>
      match decodeRecord j, decodeEntries rest with
      | some r, some s => some ((n, r) :: s)
      | _, _ => none

/-- Reading a JSON value back into a store; inverse of `usersToJson` on
its image. -/
def decodeUsers : Json → Option Store
  | Json.obj fields => decodeEntries fields
  | _ => none

/-! Model of the subprocess environment used by `_run_git_command`. -/

/-- Outcome of one `subprocess.run` invocation: exit 0 with captured
stdout, a non-zero exit (with `check=True`, Python raises
`subprocess.CalledProcessError`), or a missing executable (Python
raises `FileNotFoundError`). -/
inductive RunOutcome where
  | success : String → RunOutcome
  | nonZeroExit : RunOutcome
  | toolMissing : RunOutcome
deriving DecidableEq, Repr

/-- The environment: what running a given full command line does. -/
def GitEnv := List String → RunOutcome

/-- Python exception kinds that can escape `_run_git_command`. -/
inductive PyError where
  | fileNotFoundError : PyError
deriving DecidableEq, Repr

/-- `_run_git_command(*args)`: runs `['git'] + args`; on exit 0 returns
the trimmed stdout; catches only `subprocess.CalledProcessError`
(non-zero exit), returning `None`; a missing binary propagates as
`FileNotFoundError`. -/
def runGitCommand (env : GitEnv) (args : List String) :
    Except PyError (Option String) :=
  match env ("git" :: args) with
  | RunOutcome.success out => Except.ok (some (pyStrip out))
  | RunOutcome.nonZeroExit => Except.ok none
  | RunOutcome.toolMissing => Except.error PyError.fileNotFoundError

/-- `get_current_user`: reads `user.name` then `user.email` from local
config; an uncaught error in either read propagates. -/
def getCurrentUser (env : GitEnv) :
    Except PyError (Option String × Option String) := do
  let name ← runGitCommand env ["config", "--local", "user.name"]
  let email ← runGitCommand env ["config", "--local", "user.email"]
  return (name, email)

/-- The value `_run_git_command` yields for one outcome when it does
not raise. -/
def fieldOf : RunOutcome → Option String
  | RunOutcome.success out => some (pyStrip out)
  | _ => none

/-! Model of the filesystem walk in `_find_git_dir`. A path is its
list of components, innermost component first, so the parent of
`c :: rest` is `rest` and the root `[]` is its own parent — exactly the
fixed point `current == current.parent` that stops the Python loop. -/

/-- The filesystem facts `_find_git_dir` consults: `Path.exists()` and
`Path.is_dir()`. -/
structure FS where
  pathExists : List String → Bool
  isDir : List String → Bool

/-- `_find_git_dir`, walking from the given directory upward: at each
directory, if its `.git` child exists and is a directory, return that
child's path; the loop guard `current != current.parent` means the walk
stops at the root without examining the root itself. -/
def findGitDir (fs : FS) : List String → Option (List String)
  | [] => none
  | c :: rest =>
      if fs.pathExists (".git" :: c :: rest) && fs.isDir (".git" :: c :: rest)
      then some (".git" :: c :: rest)
      else findGitDir fs rest

/-- The test `_find_git_dir` applies at one directory, returning the
`.git` child's path on success. -/
def checkGit (fs : FS) (p : List String) : Option (List String) :=
  if fs.pathExists (".git" :: p) && fs.isDir (".git" :: p)
  then some (".git" :: p)
  else none

/-- The directories the source's loop actually visits, outermost last:
the starting directory and its ancestors, the root excluded. -/
def visitedDirs : List String → List (List String)
  | [] => []
  | c :: rest => (c :: rest) :: visitedDirs rest

/-- Modelled from the spec: the directories the spec says the locator
checks — the starting directory and every ancestor up to and including
the filesystem root. -/
def specDirs : List String → List (List String)
  | [] => [[]]
  | c :: rest => (c :: rest) :: specDirs rest

/-- Modelled from the spec: return the first `.git` directory found
over `specDirs`, the root included. -/
def specFindGitDir (fs : FS) (cwd : List String) : Option (List String) :=
  (specDirs cwd).findSome? (checkGit fs)

/-! Model of the interactive operations. Each takes the in-memory
store and the user's line inputs and returns the resulting store, the
JSON value written to the backing file (if `_save_users` ran), and the
identity passed to `set_git_user` (if it ran). -/

/-- Result of one interactive operation. -/
structure OpResult where
  users : Store
  written : Option Json
  switched : Option (String × String)

/-- Python `int(input)`: strips whitespace, then an optional sign and
digits; anything else raises `ValueError`, modelled as `none`. (`int`
also accepts underscore digit grouping and non-ASCII digits; those
inputs are out of scope of the claims and modelled as rejected.) -/
def parseInt (s : String) : Option Int :=
  match stripChars s.data with
  | '-' :: rest => (digitsNat rest).map (fun n => -(n : Int))
  | '+' :: rest => (digitsNat rest).map (fun n => (n : Int))
  | l => (digitsNat l).map (fun n => (n : Int))

/-- `list_users`: the enumerated lines `i. name <email>` with 1-based
indices in insertion order, as index/name/email triples. -/
def listUsers (users : Store) : List (Nat × String × String) :=
  (users.enumFrom 1).map (fun ie => (ie.1, ie.2.1, ie.2.2.email))

/-- `add_user`: strip the name (empty rejects), strip the email (empty
or missing `@` rejects), strip the password (empty stores `None`),
insert or overwrite the record, save, then switch only when the
lowercased answer is exactly `y`. -/
def addUser (users : Store) (nameInput emailInput passwordInput
    switchInput : String) : OpResult :=
  let name := pyStrip nameInput
  if name = "" then ⟨users, none, none⟩
  else
    let email := pyStrip emailInput
    if email = "" || !(pyContainsChar email '@') then ⟨users, none, none⟩
    else
      let password := pyStrip passwordInput
      let record : UserRecord :=
        ⟨email, if password = "" then none else some password⟩
      let users' := dictInsert users name record
      let switched :=
        if pyLower switchInput = "y" then some (name, email) else none
      ⟨users', some (usersToJson users'), switched⟩

/-- `change_user`: nothing on an empty store; a non-numeric choice or
`0` does nothing; a choice within `1..len` switches to that entry; out
of range does nothing. The store is never touched and nothing is
saved. -/
def changeUser (users : Store) (choiceInput : String) : OpResult :=
  if users.isEmpty then ⟨users, none, none⟩
  else
    match parseInt choiceInput with
    | none => ⟨users, none, none⟩
    | some c =>
        if c = 0 then ⟨users, none, none⟩
        else if 1 ≤ c ∧ c ≤ users.length then
          match users.get? (c - 1).toNat with
          | some (name, info) => ⟨users, none, some (name, info.email)⟩
          | none => ⟨users, none, none⟩
        else ⟨users, none, none⟩

/-- `remove_user`: nothing on an empty store; a non-numeric choice or
`0` does nothing; a choice within `1..len` asks for confirmation and
only the lowercased answer exactly `y` deletes that key and saves. -/
def removeUser (users : Store) (choiceInput confirmInput : String) :
    OpResult :=
  if users.isEmpty then ⟨users, none, none⟩
  else
    match parseInt choiceInput with
    | none => ⟨users, none, none⟩
    | some c =>
        if c = 0 then ⟨users, none, none⟩
        else if 1 ≤ c ∧ c ≤ (dictKeys users).length then
          match (dictKeys users).get? (c - 1).toNat with
          | some name =>
              if pyLower confirmInput = "y" then
                let users' := dictDelete users name
                ⟨users', some (usersToJson users'), none⟩
              else ⟨users, none, none⟩
          | none => ⟨users, none, none⟩
        else ⟨users, none, none⟩

/-! Helper lemmas. -/

theorem decodeRecord_recordToJson (r : UserRecord) :
    decodeRecord (recordToJson r) = some r := by
  rcases r with ⟨e, p⟩
  cases p <;> rfl

theorem decodeEntries_encode (users : Store) :
    decodeEntries (users.map (fun kv => (kv.1, recordToJson kv.2))) =
      some users := by
  induction users with
  | nil => rfl
  | cons kv rest ih =>
      rcases kv with ⟨n, r⟩
      simp [decodeEntries, decodeRecord_recordToJson, ih]

theorem dictGet_dictInsert (users : Store) (name : String) (r : UserRecord) :
    dictGet (dictInsert users name r) name = some r := by
  induction users with
  | nil => simp [dictInsert, dictGet]
  | cons kv rest ih =>
      rcases kv with ⟨k, v⟩
      by_cases hk : k = name <;> simp [dictInsert, hk, dictGet, ih]

theorem dictKeys_nil : dictKeys [] = [] := rfl

theorem dictKeys_cons (k : String) (v : UserRecord) (rest : Store) :
    dictKeys ((k, v) :: rest) = k :: dictKeys rest := rfl

theorem dictKeys_dictInsert_of_mem (users : Store) (name : String)
    (r : UserRecord) (h : name ∈ dictKeys users) :
    dictKeys (dictInsert users name r) = dictKeys users := by
  induction users with
  | nil => simp [dictKeys_nil] at h
  | cons kv rest ih =>
      rcases kv with ⟨k, v⟩
      by_cases hk : k = name
      · simp [dictInsert, hk, dictKeys_cons]
      · have hm : name ∈ dictKeys rest := by
          rcases List.mem_cons.mp (dictKeys_cons k v rest ▸ h) with h' | h'
          · exact absurd h'.symm hk
          · exact h'
        simp [dictInsert, hk, dictKeys_cons, ih hm]

theorem dictKeys_dictInsert_of_not_mem (users : Store) (name : String)
    (r : UserRecord) (h : name ∉ dictKeys users) :
    dictKeys (dictInsert users name r) = dictKeys users ++ [name] := by
  induction users with
  | nil => simp [dictInsert, dictKeys_nil, dictKeys_cons]
  | cons kv rest ih =>
      rcases kv with ⟨k, v⟩
      have hk : k ≠ name := by
        intro he
        exact h (dictKeys_cons k v rest ▸ List.mem_cons.mpr (Or.inl he.symm))
      have hm : name ∉ dictKeys rest := by
        intro hmem
        exact h (dictKeys_cons k v rest ▸ List.mem_cons.mpr (Or.inr hmem))
      simp [dictInsert, hk, dictKeys_cons, ih hm]

theorem nodup_dictKeys_dictInsert (users : Store) (name : String)
    (r : UserRecord) (h : (dictKeys users).Nodup) :
    (dictKeys (dictInsert users name r)).Nodup := by
  by_cases hm : name ∈ dictKeys users
  · rw [dictKeys_dictInsert_of_mem users name r hm]
    exact h
  · rw [dictKeys_dictInsert_of_not_mem users name r hm]
    simp [List.nodup_append, h, hm]

theorem dictKeys_dictDelete_sublist (users : Store) (name : String) :
    (dictKeys (dictDelete users name)).Sublist (dictKeys users) := by
  induction users with
  | nil => simp [dictDelete, dictKeys_nil]
  | cons kv rest ih =>
      rcases kv with ⟨k, v⟩
      by_cases hk : k = name
      · rw [dictDelete, if_pos hk, dictKeys_cons]
        exact List.sublist_cons_self _ _
      · simpa [dictDelete, hk, dictKeys_cons] using ih.cons₂ k

theorem nodup_dictKeys_dictDelete (users : Store) (name : String)
    (h : (dictKeys users).Nodup) :
    (dictKeys (dictDelete users name)).Nodup :=
  h.sublist (dictKeys_dictDelete_sublist users name)

theorem dictDelete_eq_eraseIdx (users : Store) (i : Nat) (name : String)
    (hnd : (dictKeys users).Nodup)
    (hget : (dictKeys users).get? i = some name) :
    dictDelete users name = users.eraseIdx i := by
  induction users generalizing i with
  | nil => simp [dictKeys_nil] at hget
  | cons kv rest ih =>
      rcases kv with ⟨k, v⟩
      rw [dictKeys_cons] at hnd hget
      cases i with
      | zero =>
          have hk : k = name := by simpa using hget
          simp [dictDelete, hk, List.eraseIdx]
      | succ j =>
          have hget' : (dictKeys rest).get? j = some name := by
            simpa using hget
          have hmem : name ∈ dictKeys rest := List.get?_mem hget'
          have hk : k ≠ name := by
            intro he
            exact (List.nodup_cons.mp hnd).1 (he ▸ hmem)
          have hnd' : (dictKeys rest).Nodup := (List.nodup_cons.mp hnd).2
          simp [dictDelete, hk, List.eraseIdx, ih j hnd' hget']

/-! Claim theorems. -/

/-- C1: saving any in-memory store and loading the resulting file
yields exactly the saved mapping — load after save is the identity, for
every store, hence for every store reachable by add/remove
sequences. -/
theorem load_after_save_id (users : Store) :
    decodeUsers (loadUsers (saveUsersFile users)) = some users := by
  show decodeUsers (usersToJson users) = some users
  simpa [decodeUsers, usersToJson] using decodeEntries_encode users

/-- An environment in which the external tool binary is missing: every
invocation raises `FileNotFoundError`. -/
def envMissing : GitEnv := fun _ => RunOutcome.toolMissing

/-- An environment in which every invocation exits non-zero (tool
present, no local identity configured). -/
def envNonZero : GitEnv := fun _ => RunOutcome.nonZeroExit

/-- C2 counterexample: with the external tool unavailable, reading the
current identity propagates `FileNotFoundError` instead of returning
absent fields — `except subprocess.CalledProcessError` does not catch
it. -/
theorem getCurrentUser_raises_when_tool_missing :
    getCurrentUser envMissing = Except.error PyError.fileNotFoundError :=
  rfl

/-- A single invocation never raises when the binary is present: exit 0
yields the trimmed stdout, non-zero exit yields `None`. -/
theorem runGitCommand_ok (env : GitEnv) (args : List String)
    (h : env ("git" :: args) ≠ RunOutcome.toolMissing) :
    runGitCommand env args = Except.ok (fieldOf (env ("git" :: args))) := by
  unfold runGitCommand fieldOf
  cases henv : env ("git" :: args) with
  | success out => rfl
  | nonZeroExit => rfl
  | toolMissing => exact absurd henv h

/-- C2 (amended): in every environment in which no invocation reports a
missing binary — every call either exits 0 or exits non-zero —
`get_current_user` never raises, and a field whose read exits non-zero
comes back absent rather than as an error. -/
theorem getCurrentUser_no_raise_when_tool_present (env : GitEnv)
    (h : ∀ args, env args ≠ RunOutcome.toolMissing) :
    getCurrentUser env = Except.ok
      (fieldOf (env ["git", "config", "--local", "user.name"]),
       fieldOf (env ["git", "config", "--local", "user.email"])) ∧
    (∀ args, env args = RunOutcome.nonZeroExit → fieldOf (env args) = none) := by
  constructor
  · unfold getCurrentUser
    rw [runGitCommand_ok env ["config", "--local", "user.name"] (h _),
        runGitCommand_ok env ["config", "--local", "user.email"] (h _)]
    rfl
  · intro args heq
    rw [heq]
    rfl

/-- C2 witness: with every invocation exiting non-zero, the identity
read succeeds and both fields are absent. -/
theorem getCurrentUser_no_raise_witness :
    getCurrentUser envNonZero = Except.ok (none, none) :=
  (getCurrentUser_no_raise_when_tool_present envNonZero
    (fun _ h => RunOutcome.noConfusion h)).1

/-- A filesystem in which every path exists and is a directory; in
particular the root has a `.git` directory. -/
def fsAllGit : FS := ⟨fun _ => true, fun _ => true⟩

/-- C3 counterexample: starting at the filesystem root with a `.git`
directory present there, the locator reports no repository, while the
spec's walk, which includes the root, finds it — the loop guard
`current != current.parent` exits before the root is examined. -/
theorem findGitDir_misses_root :
    findGitDir fsAllGit [] = none ∧
    specFindGitDir fsAllGit [] = some [".git"] :=
  ⟨rfl, rfl⟩

/-- C3 (amended): the locator checks the starting directory and every
ancestor strictly below the filesystem root, in order, returning the
first `.git` directory found; the root itself is never examined, and
when no visited directory has one it reports no repository. -/
theorem findGitDir_eq_first_match (fs : FS) (cwd : List String) :
    findGitDir fs cwd = (visitedDirs cwd).findSome? (checkGit fs) := by
  induction cwd with
  | nil => rfl
  | cons c rest ih =>
      by_cases hc : (fs.pathExists (".git" :: c :: rest) &&
          fs.isDir (".git" :: c :: rest)) = true
      · simp [findGitDir, visitedDirs, checkGit, hc]
      · simp [findGitDir, visitedDirs, checkGit, hc, ih]

/-- C4: loading an absent backing file yields the empty mapping, and
whenever parsing the file raises, `_load_users` returns the empty
mapping instead of propagating the error; `loadUsers` is total, so no
error reaches the caller. -/
theorem loadUsers_error_fallback :
    loadUsers FileContent.absent = Json.obj [] ∧
    (∀ f e, parseFile f = Except.error e → loadUsers f = Json.obj []) := by
  refine ⟨rfl, ?_⟩
  intro f e h
  cases f with
  | absent => rfl
  | corrupt => rfl
  | json j => simp [parseFile] at h

/-- C4 witness: a present but unparseable file loads as the empty
mapping. -/
theorem loadUsers_error_fallback_witness :
    loadUsers FileContent.corrupt = Json.obj [] :=
  loadUsers_error_fallback.2 FileContent.corrupt "JSONDecodeError" rfl

theorem addUser_users_cases (users : Store) (nI eI pI sI : String) :
    (addUser users nI eI pI sI).users = users ∨
    ∃ name r, (addUser users nI eI pI sI).users = dictInsert users name r := by
  unfold addUser
  by_cases h1 : pyStrip nI = ""
  · simp [h1]
  · by_cases h2 : (pyStrip eI = "" || !(pyContainsChar (pyStrip eI) '@')) = true
    · simp [h1, h2]
    · exact Or.inr ⟨pyStrip nI,
        ⟨pyStrip eI, if pyStrip pI = "" then none else some (pyStrip pI)⟩,
        by simp [h1, h2]⟩

theorem removeUser_users_cases (users : Store) (cI fI : String) :
    (removeUser users cI fI).users = users ∨
    ∃ name, (removeUser users cI fI).users = dictDelete users name := by
  unfold removeUser
  repeat' split
  all_goals first | exact Or.inl rfl | exact Or.inr ⟨_, rfl⟩

theorem listUsers_get? (users : Store) (j : Nat) :
    (listUsers users).get? j =
      (users.get? j).map (fun e => (j + 1, e.1, e.2.email)) := by
  cases h : users.get? j with
  | none =>
      have h' : users[j]? = none := by
        rw [← List.get?_eq_getElem?]
        exact h
      simp [listUsers, List.get?_eq_getElem?, h']
  | some e =>
      have h' : users[j]? = some e := by
        rw [← List.get?_eq_getElem?]
        exact h
      rcases e with ⟨n, r⟩
      simp [listUsers, List.get?_eq_getElem?, h', Nat.add_comm]

/-- C5: adding with a name that strips to empty, or an email that
strips to empty or lacks a `@`, is rejected: the store is unchanged,
nothing is written to the backing file, and no switch happens. -/
theorem addUser_rejects_invalid (users : Store) (nI eI pI sI : String)
    (h : pyStrip nI = "" ∨ pyStrip eI = "" ∨
         pyContainsChar (pyStrip eI) '@' = false) :
    addUser users nI eI pI sI = ⟨users, none, none⟩ := by
  unfold addUser
  rcases h with h | h | h
  · simp [h]
  · by_cases h1 : pyStrip nI = "" <;> simp [h1, h]
  · by_cases h1 : pyStrip nI = "" <;> simp [h1, h]

/-- C5 witness: an empty name and an email without `@` are both
rejected with the store untouched and nothing saved. -/
theorem addUser_rejects_invalid_witness :
    addUser [] "" "a@b.c" "" "n" = ⟨[], none, none⟩ ∧
    addUser [] "A" "not-an-email" "" "n" = ⟨[], none, none⟩ :=
  ⟨addUser_rejects_invalid [] "" "a@b.c" "" "n" (Or.inl (by decide)),
   addUser_rejects_invalid [] "A" "not-an-email" "" "n"
     (Or.inr (Or.inr (by decide)))⟩

/-- C6: inserting at an existing name keeps the key list unchanged —
no duplicate key appears — and replaces that entry's record; moreover
every add and every remove operation preserves distinctness of the
store's keys. -/
theorem addUser_overwrites_keeping_keys_unique :
    (∀ users name r, name ∈ dictKeys users →
        dictKeys (dictInsert users name r) = dictKeys users ∧
        dictGet (dictInsert users name r) name = some r) ∧
    (∀ users nI eI pI sI, (dictKeys users).Nodup →
        (dictKeys (addUser users nI eI pI sI).users).Nodup) ∧
    (∀ users cI fI, (dictKeys users).Nodup →
        (dictKeys (removeUser users cI fI).users).Nodup) := by
  refine ⟨?_, ?_, ?_⟩
  · intro users name r h
    exact ⟨dictKeys_dictInsert_of_mem users name r h,
           dictGet_dictInsert users name r⟩
  · intro users nI eI pI sI h
    rcases addUser_users_cases users nI eI pI sI with he | ⟨n, r, he⟩ <;>
      rw [he]
    · exact h
    · exact nodup_dictKeys_dictInsert users n r h
  · intro users cI fI h
    rcases removeUser_users_cases users cI fI with he | ⟨n, he⟩ <;> rw [he]
    · exact h
    · exact nodup_dictKeys_dictDelete users n h

/-- C6 witness: overwriting the existing name `A` keeps the single key
and replaces the record, and concrete add/remove runs keep the keys
distinct. -/
theorem addUser_overwrites_keeping_keys_unique_witness :
    (dictKeys (dictInsert [("A", ⟨"a@x.com", none⟩)] "A"
        ⟨"b@x.com", some "p"⟩) = dictKeys [("A", ⟨"a@x.com", none⟩)] ∧
     dictGet (dictInsert [("A", ⟨"a@x.com", none⟩)] "A"
        ⟨"b@x.com", some "p"⟩) "A" = some ⟨"b@x.com", some "p"⟩) ∧
    (dictKeys (addUser [("A", ⟨"a@x.com", none⟩)] "B" "b@x.com" "" "n").users).Nodup ∧
    (dictKeys (removeUser [("A", ⟨"a@x.com", none⟩)] "1" "y").users).Nodup :=
  ⟨addUser_overwrites_keeping_keys_unique.1 [("A", ⟨"a@x.com", none⟩)] "A"
     ⟨"b@x.com", some "p"⟩ (by decide),
   addUser_overwrites_keeping_keys_unique.2.1 [("A", ⟨"a@x.com", none⟩)]
     "B" "b@x.com" "" "n" (by decide),
   addUser_overwrites_keeping_keys_unique.2.2 [("A", ⟨"a@x.com", none⟩)]
     "1" "y" (by decide)⟩

/-- C7: on a non-empty store, the listing enumerates the entries in
insertion order with 1-based indices; a non-numeric choice does
nothing, `0` cancels, an out-of-range choice does nothing, and a valid
choice `k` switches the Git identity to the name and email of the
`k`-th entry. -/
theorem changeUser_selects_listed_entry (users : Store) (inp : String)
    (hne : users ≠ []) :
    (∀ j, (listUsers users).get? j =
        (users.get? j).map (fun e => (j + 1, e.1, e.2.email))) ∧
    (parseInt inp = none → changeUser users inp = ⟨users, none, none⟩) ∧
    (parseInt inp = some 0 → changeUser users inp = ⟨users, none, none⟩) ∧
    (∀ k : Int, parseInt inp = some k → k ≠ 0 →
        ¬(1 ≤ k ∧ k ≤ users.length) →
        changeUser users inp = ⟨users, none, none⟩) ∧
    (∀ (k : Int) (name : String) (info : UserRecord),
        parseInt inp = some k → 1 ≤ k → k ≤ users.length →
        users.get? (k - 1).toNat = some (name, info) →
        changeUser users inp = ⟨users, none, some (name, info.email)⟩) := by
  have hie : users.isEmpty = false := by
    cases users with
    | nil => exact absurd rfl hne
    | cons a l => rfl
  refine ⟨listUsers_get? users, ?_, ?_, ?_, ?_⟩
  · intro h
    simp [changeUser, hie, h]
  · intro h
    simp [changeUser, hie, h]
  · intro k h hk0 hr
    simp [changeUser, hie, h, hk0, hr]
  · intro k name info h h1 h2 hget
    have hk0 : ¬(k = 0) := by omega
    have hidx : (k - 1).toNat = k.toNat - 1 := by omega
    have hget' : users[k.toNat - 1]? = some (name, info) := by
      rw [← List.get?_eq_getElem?, ← hidx]
      exact hget
    simp [changeUser, hie, h, hk0, h1, h2, hget']

/-- A one-entry store used by concrete witnesses. -/
def storeA : Store := [("A", ⟨"a@x.com", none⟩)]

/-- C7 witness: on the store holding only `A <a@x.com>`, choice `1`
switches to that identity. -/
theorem changeUser_selects_listed_entry_witness :
    changeUser storeA "1" = ⟨storeA, none, some ("A", "a@x.com")⟩ :=
  (changeUser_selects_listed_entry storeA "1" (by decide)).2.2.2.2 1 "A"
    ⟨"a@x.com", none⟩ (by decide) (by decide) (by decide) rfl

/-- C8: on a non-empty store, a valid 1-based choice confirmed with a
case-insensitive `y` deletes exactly that entry and writes the updated
mapping to the backing file; a non-numeric choice, `0`, an
out-of-range choice, or any other confirmation leaves the store
untouched and writes nothing. Under distinct keys the deletion removes
precisely the chosen index. -/
theorem removeUser_deletes_confirmed_entry (users : Store)
    (cI fI : String) (hne : users ≠ []) :
    (parseInt cI = none → removeUser users cI fI = ⟨users, none, none⟩) ∧
    (parseInt cI = some 0 → removeUser users cI fI = ⟨users, none, none⟩) ∧
    (∀ k : Int, parseInt cI = some k → k ≠ 0 →
        ¬(1 ≤ k ∧ k ≤ (dictKeys users).length) →
        removeUser users cI fI = ⟨users, none, none⟩) ∧
    (∀ k : Int, parseInt cI = some k → pyLower fI ≠ "y" →
        removeUser users cI fI = ⟨users, none, none⟩) ∧
    (∀ (k : Int) (name : String),
        parseInt cI = some k → 1 ≤ k → k ≤ (dictKeys users).length →
        (dictKeys users).get? (k - 1).toNat = some name →
        pyLower fI = "y" →
        removeUser users cI fI =
          ⟨dictDelete users name,
           some (usersToJson (dictDelete users name)), none⟩) ∧
    (∀ (k : Int) (name : String),
        (dictKeys users).Nodup →
        parseInt cI = some k → 1 ≤ k → k ≤ (dictKeys users).length →
        (dictKeys users).get? (k - 1).toNat = some name →
        pyLower fI = "y" →
        (removeUser users cI fI).users = users.eraseIdx (k - 1).toNat) := by
  have hie : users.isEmpty = false := by
    cases users with
    | nil => exact absurd rfl hne
    | cons a l => rfl
  refine ⟨?_, ?_, ?_, ?_, ?_, ?_⟩
  · intro h
    simp [removeUser, hie, h]
  · intro h
    simp [removeUser, hie, h]
  · intro k h hk0 hr
    simp [removeUser, hie, h, hk0, hr]
  · intro k h hconf
    by_cases hk0 : k = 0
    · simp [removeUser, hie, h, hk0]
    · by_cases hr : 1 ≤ k ∧ k ≤ (dictKeys users).length
      · have hidx : (k - 1).toNat = k.toNat - 1 := by omega
        cases hget : (dictKeys users)[k.toNat - 1]? with
        | none => simp [removeUser, hie, h, hk0, hr, hget]
        | some name => simp [removeUser, hie, h, hk0, hr, hget, hconf]
      · simp [removeUser, hie, h, hk0, hr]
  · intro k name h h1 h2 hget hconf
    have hk0 : ¬(k = 0) := by omega
    have hidx : (k - 1).toNat = k.toNat - 1 := by omega
    have hget' : (dictKeys users)[k.toNat - 1]? = some name := by
      rw [← List.get?_eq_getElem?, ← hidx]
      exact hget
    simp [removeUser, hie, h, hk0, h1, h2, hget', hconf]
  · intro k name hnd h h1 h2 hget hconf
    have hk0 : ¬(k = 0) := by omega
    have hidx : (k - 1).toNat = k.toNat - 1 := by omega
    have hget' : (dictKeys users)[k.toNat - 1]? = some name := by
      rw [← List.get?_eq_getElem?, ← hidx]
      exact hget
    have hres : (removeUser users cI fI).users = dictDelete users name := by
      simp [removeUser, hie, h, hk0, h1, h2, hget', hconf]
    rw [hres, dictDelete_eq_eraseIdx users ((k - 1).toNat) name hnd hget]

/-- C8 witness: on the store holding only `A`, choice `1` confirmed
with `y` empties the store and writes the empty mapping, while
answering `n` leaves everything untouched. -/
theorem removeUser_deletes_confirmed_entry_witness :
    removeUser storeA "1" "y" = ⟨[], some (usersToJson []), none⟩ ∧
    removeUser storeA "1" "n" = ⟨storeA, none, none⟩ :=
  ⟨(removeUser_deletes_confirmed_entry storeA "1" "y"
      (by decide)).2.2.2.2.1 1 "A" (by decide) (by decide) (by decide) rfl
      (by decide),
   (removeUser_deletes_confirmed_entry storeA "1" "n"
      (by decide)).2.2.2.1 1 (by decide) (by decide)⟩

/-- C9: from the empty store, adding `Jane Doe` with email
`jane@example.com`, the password prompt skipped and the switch
question answered `n`, yields exactly the one record with a `null`
password, persists it, and does not touch the Git identity. -/
theorem addUser_scenario_jane :
    addUser [] "Jane Doe" "jane@example.com" "" "n" =
      ⟨[("Jane Doe", ⟨"jane@example.com", none⟩)],
       some (usersToJson [("Jane Doe", ⟨"jane@example.com", none⟩)]),
       none⟩ :=
  rfl

/-- C10: whatever the store and the input line, `change_user` leaves
the in-memory store exactly as it was and never writes the backing
file; among the operations only `addUser` and `removeUser` produce a
`written` value. -/
theorem changeUser_never_mutates_or_saves (users : Store) (inp : String) :
    (changeUser users inp).users = users ∧
    (changeUser users inp).written = none := by
  unfold changeUser
  repeat' split
  all_goals exact ⟨rfl, rfl⟩

end GitUserSwitcher
